import Mathlib

/-!
Verification of the graphql-tools-rs validator core: a shallow embedding of
the schema-aware operation walker (`src/ast/operation_visitor.rs`), the
field-lookup extensions (`src/ast/ext.rs`), the validation driver
(`src/validation/validate.rs`) and the default rule plan
(`src/validation/rules/defaults.rs`), together with theorems about the
claims made by the design specification.

Conventions:
* Rust `Vec` stacks are modelled as Lean lists with the TOP of the stack at
  the HEAD of the list (`Vec::push` = `List.cons`, `Vec::last()` =
  `List.head?`, `Vec::pop` = `List.tail`).
* Visitor hooks are modelled by an event trace: every hook invocation
  becomes an `Event` recording the hook kind and a snapshot of the five
  context stacks at the moment the hook is invoked.
* Rust panics (`expect`) are modelled by `Except.error`.
-/

namespace GraphQLTools

/-! ## AST data model (graphql_parser, consumed as a black box) -/

/-- A GraphQL type literal: `Named(name)`, `List(inner)`, `NonNull(inner)`. -/
inductive GType where
  | namedType (name : String)
  | listType (inner : GType)
  | nonNullType (inner : GType)
deriving Repr, DecidableEq

/-- A schema input value definition (argument or input-object field):
name and declared type literal. -/
structure InputValue where
  name : String
  value_type : GType
deriving Repr, DecidableEq

/-- A schema field definition: name, argument definitions, result type literal. -/
structure SchemaField where
  name : String
  arguments : List InputValue
  field_type : GType
deriving Repr, DecidableEq

structure ObjectType where
  name : String
  implements_interfaces : List String
  fields : List SchemaField
deriving Repr, DecidableEq

structure InterfaceType where
  name : String
  implements_interfaces : List String
  fields : List SchemaField
deriving Repr, DecidableEq

structure UnionType where
  name : String
  types : List String
deriving Repr, DecidableEq

structure ScalarType where
  name : String
deriving Repr, DecidableEq

structure EnumType where
  name : String
  values : List String
deriving Repr, DecidableEq

structure InputObjectType where
  name : String
  fields : List InputValue
deriving Repr, DecidableEq

/-- A schema type definition, one of the six GraphQL kinds. -/
inductive TypeDefinition where
  | object (t : ObjectType)
  | interface (t : InterfaceType)
  | union (t : UnionType)
  | scalar (t : ScalarType)
  | enum (t : EnumType)
  | inputObject (t : InputObjectType)
deriving Repr, DecidableEq

structure DirectiveDefinition where
  name : String
  arguments : List InputValue
deriving Repr, DecidableEq

/-- An explicit `schema { query: ... mutation: ... subscription: ... }`
definition with optional root type names. -/
structure SchemaDefinitionNode where
  query : Option String
  mutation : Option String
  subscription : Option String
deriving Repr, DecidableEq

inductive SchemaDefinitionEntry where
  | schemaDef (s : SchemaDefinitionNode)
  | typeDef (t : TypeDefinition)
  | directiveDef (d : DirectiveDefinition)
deriving Repr, DecidableEq

/-- A parsed schema document: an ordered sequence of definitions. -/
structure SchemaDoc where
  definitions : List SchemaDefinitionEntry
deriving Repr, DecidableEq

/-- `TypeDefinitionExtension::name` from `src/ast/ext.rs` (lines 163-173). -/
def TypeDefinition.name : TypeDefinition → String
  | .object o => o.name
  | .interface i => i.name
  | .union u => u.name
  | .scalar s => s.name
  | .enum e => e.name
  | .inputObject i => i.name

/-! Query (executable document) AST.  `Value` is the input value AST; the
`ValueList` / `ObjectValueFields` wrappers avoid nested `List` recursion. -/

mutual
inductive Value where
  | variableValue (name : String)
  | intValue (v : Int)
  | floatValue (v : String)
  | stringValue (v : String)
  | booleanValue (v : Bool)
  | nullValue
  | enumValue (v : String)
  | listValue (items : ValueList)
  | objectValue (fields : ObjectValueFields)

inductive ValueList where
  | nil
  | cons (head : Value) (tail : ValueList)

inductive ObjectValueFields where
  | nil
  | cons (key : String) (value : Value) (tail : ObjectValueFields)
end

structure Directive where
  name : String
  arguments : List (String × Value)

structure VariableDefinition where
  name : String
  var_type : GType
  default_value : Option Value

mutual
inductive Selection where
  | field (field_alias : Option String) (name : String) (arguments : List (String × Value))
      (directives : List Directive) (selection_set : SelectionSet)
  | fragmentSpread (fragment_name : String) (directives : List Directive)
  | inlineFragment (type_condition : Option String) (directives : List Directive)
      (selection_set : SelectionSet)

inductive SelectionSet where
  | mk (items : SelectionList)

inductive SelectionList where
  | nil
  | cons (head : Selection) (tail : SelectionList)
end

def SelectionList.toList : SelectionList → List Selection
  | .nil => []
  | .cons s rest => s :: rest.toList

structure FragmentDefinition where
  name : String
  type_condition : String
  directives : List Directive
  selection_set : SelectionSet

/-- Shared shape of `Query`, `Mutation` and `Subscription` operation nodes. -/
structure QueryNode where
  name : Option String
  variable_definitions : List VariableDefinition
  directives : List Directive
  selection_set : SelectionSet

inductive OperationDefinition where
  | selectionSet (s : SelectionSet)
  | query (q : QueryNode)
  | mutation (m : QueryNode)
  | subscription (s : QueryNode)

inductive Definition where
  | operation (op : OperationDefinition)
  | fragment (f : FragmentDefinition)

/-- A parsed executable document. -/
structure Document where
  definitions : List Definition

/-! ## Schema index (modelled accessors)

The `SchemaDocumentExtension` trait implementation is not among the source
files under review; the definitions below are models. -/

/-- Modelled from the spec: `inner_type` / `get_named_type`
(`TypeExtension`, declared outside the reviewed sources) unwraps List and
NonNull wrappers of a type literal down to the inner named type (§4.B:
"resolves the literal's inner named type"). -/
def inner_type : GType → String
  | .namedType n => n
  | .listType t => inner_type t
  | .nonNullType t => inner_type t

/-- Modelled from the spec: `type_by_name` (`SchemaDocumentExtension`,
declared outside the reviewed sources) is the §4.A *typeByName* mapping:
lookup of a type definition by name in the schema document. -/
def type_by_name (schema : SchemaDoc) (name : String) : Option TypeDefinition :=
  schema.definitions.findSome? (fun d => match d with
    | .typeDef t => if t.name == name then some t else none
    | _ => none)

/-- Modelled from the spec: `directive_by_name` (`SchemaDocumentExtension`,
outside the reviewed sources) is the §4.A *directiveByName* mapping. -/
def directive_by_name (schema : SchemaDoc) (name : String) : Option DirectiveDefinition :=
  schema.definitions.findSome? (fun d => match d with
    | .directiveDef dd => if dd.name == name then some dd else none
    | _ => none)

/-- Modelled from the spec: `schema_definition` (outside the reviewed
sources) returns the explicit `schema { ... }` definition, if present. -/
def schema_definition (schema : SchemaDoc) : Option SchemaDefinitionNode :=
  schema.definitions.findSome? (fun d => match d with
    | .schemaDef s => some s
    | _ => none)

/-- Modelled from the spec: `object_type_by_name` (outside the reviewed
sources): lookup of an object type by name. -/
def object_type_by_name (schema : SchemaDoc) (name : String) : Option ObjectType :=
  schema.definitions.findSome? (fun d => match d with
    | .typeDef (.object o) => if o.name == name then some o else none
    | _ => none)

/-- Modelled from the spec: the query root type name per §4.A — `query`
defaults to the type named `Query`; an explicit schema definition
overrides the default. -/
def query_root_name (schema : SchemaDoc) : String :=
  ((schema_definition schema).bind (fun sd => sd.query)).getD "Query"

/-- Modelled from the spec: the mutation root type name per §4.A. -/
def mutation_root_name (schema : SchemaDoc) : String :=
  ((schema_definition schema).bind (fun sd => sd.mutation)).getD "Mutation"

/-- Modelled from the spec: the subscription root type name per §4.A. -/
def subscription_root_name (schema : SchemaDoc) : String :=
  ((schema_definition schema).bind (fun sd => sd.subscription)).getD "Subscription"

/-- Modelled from the spec: `query_type` (`SchemaDocumentExtension`,
declared outside the reviewed sources).  §4.A names the root resolution
rules; the call site in `visit_definitions`
(`src/ast/operation_visitor.rs` lines 148-151) reads
`context.schema.query_type().name.clone()`, i.e. the accessor returns the
object type itself, not an `Option` — so, unlike `mutation_type` and
`subscription_type`, it cannot "fail silently"; absence of the query root
is a failure (a Rust `expect`-style panic), modelled as `Except.error`. -/
def query_type (schema : SchemaDoc) : Except String ObjectType :=
  match object_type_by_name schema (query_root_name schema) with
  | some t => .ok t
  | none => .error "Must provide schema definition with query type or a type named Query."

/-- Modelled from the spec: `mutation_type` (outside the reviewed sources)
— §4.A: "Fails silently (returns `None`) if a root is absent."  The call
site (`operation_visitor.rs` line 152) confirms the `Option` result:
`context.schema.mutation_type().map(|t| t.name)`. -/
def mutation_type (schema : SchemaDoc) : Option ObjectType :=
  object_type_by_name schema (mutation_root_name schema)

/-- Modelled from the spec: `subscription_type` (outside the reviewed
sources), symmetric to `mutation_type` (call site line 153-155). -/
def subscription_type (schema : SchemaDoc) : Option ObjectType :=
  object_type_by_name schema (subscription_root_name schema)

/-- Modelled from the spec: `field_by_name` (`FieldByNameExtension`,
outside the reviewed sources) — §4.C.4: "look up the field on the *parent
type* by name; obtain its result-type literal (may be missing if parent
has no such field)".  Object and Interface types carry fields; all other
kinds define none (matching `find_field` in `src/ast/ext.rs`). -/
def field_by_name (t : TypeDefinition) (name : String) : Option SchemaField :=
  match t with
  | .object o => o.fields.find? (fun f => f.name == name)
  | .interface i => i.fields.find? (fun f => f.name == name)
  | _ => none

/-- Modelled from the spec: `input_field_by_name` (outside the reviewed
sources) — §4.C.9: "derive field input-type by looking up the named
input-object type and finding a field of that name". -/
def input_field_by_name (t : TypeDefinition) (name : String) : Option InputValue :=
  match t with
  | .inputObject i => i.fields.find? (fun f => f.name == name)
  | _ => none

/-! ## `src/ast/ext.rs`: find_field and CompositeType -/

/-- `AstNodeWithFields for ObjectType` (`ext.rs` lines 12-16). -/
def ObjectType.find_field (t : ObjectType) (name : String) : Option SchemaField :=
  t.fields.find? (fun f => f.name == name)

/-- `AstNodeWithFields for InterfaceType` (`ext.rs` lines 18-22). -/
def InterfaceType.find_field (t : InterfaceType) (name : String) : Option SchemaField :=
  t.fields.find? (fun f => f.name == name)

/-- `AstNodeWithFields for UnionType` (`ext.rs` lines 24-28): a union
defines no locatable fields. -/
def UnionType.find_field (_t : UnionType) (_name : String) : Option SchemaField :=
  none

/-- `CompositeType` (`ext.rs` lines 40-45): Object, Interface or Union. -/
inductive CompositeType where
  | object (t : ObjectType)
  | interface (t : InterfaceType)
  | union (t : UnionType)
deriving Repr, DecidableEq

/-- `CompositeType::find_field` (`ext.rs` lines 56-63). -/
def CompositeType.find_field : CompositeType → String → Option SchemaField
  | .object o, name => o.find_field name
  | .interface i, name => i.find_field name
  | .union u, name => u.find_field name

/-- `CompositeType::from_type_definition` (`ext.rs` lines 65-72). -/
def CompositeType.from_type_definition : TypeDefinition → Option CompositeType
  | .object o => some (.object o)
  | .interface i => some (.interface i)
  | .union u => some (.union u)
  | _ => none

/-! ## `OperationVisitorContext` (`src/ast/operation_visitor.rs` lines 14-118)

The five private stacks.  The `schema`, `operation`, `known_fragments` and
`directives` fields of the Rust context are immutable for the whole
traversal; the walker functions below receive the schema as a separate
argument, and `known_fragments` is embedded on its own (see
`known_fragments` further down). -/

structure VContext where
  type_stack : List (Option TypeDefinition)
  parent_type_stack : List (Option TypeDefinition)
  input_type_stack : List (Option TypeDefinition)
  type_literal_stack : List (Option GType)
  input_type_literal_stack : List (Option GType)
deriving Repr, DecidableEq

/-- `OperationVisitorContext::new` starts all five stacks empty
(`operation_visitor.rs` lines 28-36). -/
def initial_context : VContext :=
  { type_stack := [], parent_type_stack := [], input_type_stack := []
    type_literal_stack := [], input_type_literal_stack := [] }

/-- The hook vocabulary of the `OperationVisitor` trait
(`operation_visitor.rs` lines 446-691): one enter/leave pair per AST node
kind, with the name payloads the claims need. -/
inductive EventKind where
  | enterDocument | leaveDocument
  | enterOperationDefinition | leaveOperationDefinition
  | enterFragmentDefinition (name : String) | leaveFragmentDefinition (name : String)
  | enterVariableDefinition (name : String) | leaveVariableDefinition (name : String)
  | enterDirective (name : String) | leaveDirective (name : String)
  | enterArgument (name : String) | leaveArgument (name : String)
  | enterSelectionSet | leaveSelectionSet
  | enterField (name : String) | leaveField (name : String)
  | enterFragmentSpread (name : String) | leaveFragmentSpread (name : String)
  | enterInlineFragment | leaveInlineFragment
  | enterNullValue | leaveNullValue
  | enterScalarValue | leaveScalarValue
  | enterEnumValue (v : String) | leaveEnumValue (v : String)
  | enterVariableValue (name : String) | leaveVariableValue (name : String)
  | enterListValue | leaveListValue
  | enterObjectValue | leaveObjectValue
  | enterObjectField (key : String) | leaveObjectField (key : String)
deriving Repr, DecidableEq

/-- One hook invocation: the hook kind plus a snapshot of the five stacks
at the moment the hook is called. -/
structure Event where
  kind : EventKind
  ctx : VContext
deriving Repr, DecidableEq

/-- The push half of `with_type` (`operation_visitor.rs` lines 60-67):
resolve the literal's inner named type and push it on `type_stack`, push
the literal on `type_literal_stack`. -/
def push_type (schema : SchemaDoc) (t : Option GType) (ctx : VContext) : VContext :=
  let resolved : Option TypeDefinition :=
    match t with
    | some ty => type_by_name schema (inner_type ty)
    | none => none
  { ctx with type_stack := resolved :: ctx.type_stack
             type_literal_stack := t :: ctx.type_literal_stack }

/-- The pop half of `with_type` (`operation_visitor.rs` lines 69-70). -/
def pop_type (ctx : VContext) : VContext :=
  { ctx with type_stack := ctx.type_stack.tail
             type_literal_stack := ctx.type_literal_stack.tail }

/-- The push half of `with_parent_type` (`operation_visitor.rs` lines
77-78): capture the top of the type stack onto the parent-type stack. -/
def push_parent_type (ctx : VContext) : VContext :=
  { ctx with parent_type_stack := (ctx.type_stack.head?.getD none) :: ctx.parent_type_stack }

/-- The pop half of `with_parent_type` (`operation_visitor.rs` line 80). -/
def pop_parent_type (ctx : VContext) : VContext :=
  { ctx with parent_type_stack := ctx.parent_type_stack.tail }

/-- The push half of `with_input_type` (`operation_visitor.rs` lines 87-94). -/
def push_input_type (schema : SchemaDoc) (t : Option GType) (ctx : VContext) : VContext :=
  let resolved : Option TypeDefinition :=
    match t with
    | some ty => type_by_name schema (inner_type ty)
    | none => none
  { ctx with input_type_stack := resolved :: ctx.input_type_stack
             input_type_literal_stack := t :: ctx.input_type_literal_stack }

/-- The pop half of `with_input_type` (`operation_visitor.rs` lines 96-97). -/
def pop_input_type (ctx : VContext) : VContext :=
  { ctx with input_type_stack := ctx.input_type_stack.tail
             input_type_literal_stack := ctx.input_type_literal_stack.tail }

/-- `OperationVisitorContext::with_type` (`operation_visitor.rs` lines
56-71): push, run the body, pop.  The body returns the mutated context
together with the events its hook invocations produced. -/
def with_type (schema : SchemaDoc) (t : Option GType)
    (body : VContext → VContext × List Event) (ctx : VContext) :
    VContext × List Event :=
  let r := body (push_type schema t ctx)
  (pop_type r.1, r.2)

/-- `OperationVisitorContext::with_parent_type` (`operation_visitor.rs`
lines 73-81). -/
def with_parent_type (body : VContext → VContext × List Event) (ctx : VContext) :
    VContext × List Event :=
  let r := body (push_parent_type ctx)
  (pop_parent_type r.1, r.2)

/-- `OperationVisitorContext::with_input_type` (`operation_visitor.rs`
lines 83-98). -/
def with_input_type (schema : SchemaDoc) (t : Option GType)
    (body : VContext → VContext × List Event) (ctx : VContext) :
    VContext × List Event :=
  let r := body (push_input_type schema t ctx)
  (pop_input_type r.1, r.2)

/-- `current_type` (`operation_visitor.rs` lines 100-102):
`type_stack.last().unwrap_or(&None).as_ref()` — the top entry, `None` when
the stack is empty or the top was pushed as `None`. -/
def current_type (ctx : VContext) : Option TypeDefinition :=
  ctx.type_stack.head?.getD none

/-- `current_parent_type` (`operation_visitor.rs` lines 104-106). -/
def current_parent_type (ctx : VContext) : Option TypeDefinition :=
  ctx.parent_type_stack.head?.getD none

/-- `current_type_literal` (`operation_visitor.rs` lines 108-110). -/
def current_type_literal (ctx : VContext) : Option GType :=
  ctx.type_literal_stack.head?.getD none

/-- `current_input_type_literal` (`operation_visitor.rs` lines 112-117). -/
def current_input_type_literal (ctx : VContext) : Option GType :=
  ctx.input_type_literal_stack.head?.getD none

/-! ## The walker (`operation_visitor.rs` lines 120-443)

Each `visit_*` function returns the context after the visit together with
the list of hook invocation events it produced, in invocation order. -/

mutual
/-- `visit_input_value` (`operation_visitor.rs` lines 221-295), together
with the loops over list elements (lines 262-266) and object fields
(lines 273-286, as `visit_object_fields` below). -/
def visit_input_value (schema : SchemaDoc) (input_value : Value) (ctx : VContext) :
    VContext × List Event :=
  match input_value with
  | .booleanValue _ => (ctx, [⟨.enterScalarValue, ctx⟩, ⟨.leaveScalarValue, ctx⟩])
  | .floatValue _ => (ctx, [⟨.enterScalarValue, ctx⟩, ⟨.leaveScalarValue, ctx⟩])
  | .intValue _ => (ctx, [⟨.enterScalarValue, ctx⟩, ⟨.leaveScalarValue, ctx⟩])
  | .nullValue => (ctx, [⟨.enterNullValue, ctx⟩, ⟨.leaveNullValue, ctx⟩])
  | .stringValue _ => (ctx, [⟨.enterScalarValue, ctx⟩, ⟨.leaveScalarValue, ctx⟩])
  | .enumValue v => (ctx, [⟨.enterEnumValue v, ctx⟩, ⟨.leaveEnumValue v, ctx⟩])
  | .listValue items =>
      let input_type : Option GType :=
        (current_input_type_literal ctx).bind (fun t => match t with
          | .listType inner => some inner
          | _ => none)
      let r := with_input_type schema input_type
        (fun c => visit_value_list schema items c) ctx
      (r.1, ⟨.enterListValue, ctx⟩ :: r.2 ++ [⟨.leaveListValue, r.1⟩])
  | .objectValue fields =>
      let r := visit_object_fields schema fields ctx
      (r.1, ⟨.enterObjectValue, ctx⟩ :: r.2 ++ [⟨.leaveObjectValue, r.1⟩])
  | .variableValue v => (ctx, [⟨.enterVariableValue v, ctx⟩, ⟨.leaveVariableValue v, ctx⟩])

def visit_value_list (schema : SchemaDoc) (items : ValueList) (ctx : VContext) :
    VContext × List Event :=
  match items with
  | .nil => (ctx, [])
  | .cons item rest =>
      let r1 := visit_input_value schema item ctx
      let r2 := visit_value_list schema rest r1.1
      (r2.1, r1.2 ++ r2.2)

def visit_object_fields (schema : SchemaDoc) (fields : ObjectValueFields) (ctx : VContext) :
    VContext × List Event :=
  match fields with
  | .nil => (ctx, [])
  | .cons sub_key sub_value rest =>
      let input_type : Option GType :=
        ((((current_input_type_literal ctx).bind
            (fun v => type_by_name schema (inner_type v))).bind
            (fun v => input_field_by_name v sub_key)).map
            (fun v => v.value_type))
      let r1 := with_input_type schema input_type (fun c =>
          let r := visit_input_value schema sub_value c
          (r.1, ⟨.enterObjectField sub_key, c⟩ :: r.2 ++ [⟨.leaveObjectField sub_key, r.1⟩])) ctx
      let r2 := visit_object_fields schema rest r1.1
      (r2.1, r1.2 ++ r2.2)
end

/-- `visit_arguments` (`operation_visitor.rs` lines 199-219): for each
argument, find its definition by name, and visit the argument and its
value under `with_input_type` of the definition's declared type. -/
def visit_arguments (schema : SchemaDoc) (arguments_definition : Option (List InputValue))
    (arguments : List (String × Value)) (ctx : VContext) : VContext × List Event :=
  match arguments with
  | [] => (ctx, [])
  | argument :: rest =>
      let arg_type : Option GType :=
        (arguments_definition.bind
          (fun argument_defs => argument_defs.find? (fun a => a.name == argument.1))).map
          (fun a => a.value_type)
      let r1 := with_input_type schema arg_type (fun c =>
          let r := visit_input_value schema argument.2 c
          (r.1, ⟨.enterArgument argument.1, c⟩ :: r.2 ++ [⟨.leaveArgument argument.1, r.1⟩])) ctx
      let r2 := visit_arguments schema arguments_definition rest r1.1
      (r2.1, r1.2 ++ r2.2)

/-- `visit_directives` (`operation_visitor.rs` lines 173-197): for each
directive, look up the directive definition's argument list, emit
enter, traverse the arguments, emit leave. -/
def visit_directives (schema : SchemaDoc) (directives : List Directive) (ctx : VContext) :
    VContext × List Event :=
  match directives with
  | [] => (ctx, [])
  | directive :: rest =>
      let directive_def_args : Option (List InputValue) :=
        (directive_by_name schema directive.name).map (fun d => d.arguments)
      let r1 := visit_arguments schema directive_def_args directive.arguments ctx
      let r2 := visit_directives schema rest r1.1
      (r2.1, (⟨.enterDirective directive.name, ctx⟩ :: r1.2
        ++ [⟨.leaveDirective directive.name, r1.1⟩]) ++ r2.2)

/-- `visit_variable_definitions` (`operation_visitor.rs` lines 297-318):
each variable is visited under `with_input_type` of its declared type;
a default value, when present, is walked as an input value. -/
def visit_variable_definitions (schema : SchemaDoc) (var_defs : List VariableDefinition)
    (ctx : VContext) : VContext × List Event :=
  match var_defs with
  | [] => (ctx, [])
  | var_def :: rest =>
      let r1 := with_input_type schema (some var_def.var_type) (fun c =>
          let rdef : VContext × List Event :=
            match var_def.default_value with
            | some default_value => visit_input_value schema default_value c
            | none => (c, [])
          (rdef.1, ⟨.enterVariableDefinition var_def.name, c⟩ :: rdef.2
            ++ [⟨.leaveVariableDefinition var_def.name, rdef.1⟩])) ctx
      let r2 := visit_variable_definitions schema rest r1.1
      (r2.1, r1.2 ++ r2.2)

mutual
/-- `visit_selection` (`operation_visitor.rs` lines 320-390).  A `Field`
resolves its definition on the current *parent* type and is visited under
`with_type` of the resolved result-type literal; a `FragmentSpread` emits
enter/leave and traverses only its directives; an `InlineFragment` pushes
its type condition, when present, for its body. -/
def visit_selection (schema : SchemaDoc) (selection : Selection) (ctx : VContext) :
    VContext × List Event :=
  match selection with
  | .field _field_alias name arguments directives selection_set =>
      let parent_type_def : Option SchemaField :=
        (current_parent_type ctx).bind (fun t => field_by_name t name)
      let field_type : Option GType := parent_type_def.map (fun f => f.field_type)
      let field_args : Option (List InputValue) := parent_type_def.map (fun f => f.arguments)
      with_type schema field_type (fun c =>
        let r1 := visit_arguments schema field_args arguments c
        let r2 := visit_directives schema directives r1.1
        let r3 := visit_selection_set schema selection_set r2.1
        (r3.1, ⟨.enterField name, c⟩ :: (r1.2 ++ r2.2 ++ r3.2)
          ++ [⟨.leaveField name, r3.1⟩])) ctx
  | .fragmentSpread fragment_name directives =>
      let r := visit_directives schema directives ctx
      (r.1, ⟨.enterFragmentSpread fragment_name, ctx⟩ :: r.2
        ++ [⟨.leaveFragmentSpread fragment_name, r.1⟩])
  | .inlineFragment type_condition directives selection_set =>
      match type_condition with
      | some fragment_condition =>
          with_type schema (some (GType.namedType fragment_condition)) (fun c =>
            let r1 := visit_directives schema directives c
            let r2 := visit_selection_set schema selection_set r1.1
            (r2.1, ⟨.enterInlineFragment, c⟩ :: (r1.2 ++ r2.2)
              ++ [⟨.leaveInlineFragment, r2.1⟩])) ctx
      | none =>
          let r1 := visit_directives schema directives ctx
          let r2 := visit_selection_set schema selection_set r1.1
          (r2.1, ⟨.enterInlineFragment, ctx⟩ :: (r1.2 ++ r2.2)
            ++ [⟨.leaveInlineFragment, r2.1⟩])

def visit_selection_list (schema : SchemaDoc) (items : SelectionList) (ctx : VContext) :
    VContext × List Event :=
  match items with
  | .nil => (ctx, [])
  | .cons selection rest =>
      let r1 := visit_selection schema selection ctx
      let r2 := visit_selection_list schema rest r1.1
      (r2.1, r1.2 ++ r2.2)

/-- `visit_selection_set` (`operation_visitor.rs` lines 392-409): the
whole set, enter/leave hooks included, runs under `with_parent_type`. -/
def visit_selection_set (schema : SchemaDoc) (selection_set : SelectionSet) (ctx : VContext) :
    VContext × List Event :=
  match selection_set with
  | .mk items =>
      with_parent_type (fun c =>
        let r := visit_selection_list schema items c
        (r.1, ⟨.enterSelectionSet, c⟩ :: r.2 ++ [⟨.leaveSelectionSet, r.1⟩])) ctx
end

/-- `visit_fragment_definition` (`operation_visitor.rs` lines 411-423). -/
def visit_fragment_definition (schema : SchemaDoc) (fragment : FragmentDefinition)
    (ctx : VContext) : VContext × List Event :=
  let r1 := visit_directives schema fragment.directives ctx
  let r2 := visit_selection_set schema fragment.selection_set r1.1
  (r2.1, ⟨.enterFragmentDefinition fragment.name, ctx⟩ :: (r1.2 ++ r2.2)
    ++ [⟨.leaveFragmentDefinition fragment.name, r2.1⟩])

/-- Modelled from the spec: `OperationDefinitionExtension::variable_definitions`
(declared outside the reviewed sources) — a bare selection-set operation
has no variable definitions. -/
def OperationDefinition.variable_definitions : OperationDefinition → List VariableDefinition
  | .selectionSet _ => []
  | .query q => q.variable_definitions
  | .mutation m => m.variable_definitions
  | .subscription s => s.variable_definitions

/-- Modelled from the spec: `OperationDefinitionExtension::selection_set`
(declared outside the reviewed sources). -/
def OperationDefinition.selection_set : OperationDefinition → SelectionSet
  | .selectionSet s => s
  | .query q => q.selection_set
  | .mutation m => m.selection_set
  | .subscription s => s.selection_set

/-- `visit_operation_definition` (`operation_visitor.rs` lines 425-443):
enter, variable definitions, selection set, leave.  The operation's own
directives are *not* traversed (see the source comment at line 434). -/
def visit_operation_definition (schema : SchemaDoc) (operation : OperationDefinition)
    (ctx : VContext) : VContext × List Event :=
  let r1 := visit_variable_definitions schema operation.variable_definitions ctx
  let r2 := visit_selection_set schema operation.selection_set r1.1
  (r2.1, ⟨.enterOperationDefinition, ctx⟩ :: (r1.2 ++ r2.2)
    ++ [⟨.leaveOperationDefinition, r2.1⟩])

/-- The root type name selection of `visit_definitions`
(`operation_visitor.rs` lines 142-157): a fragment contributes its type
condition; `Query` and bare `SelectionSet` operations read
`schema.query_type().name` (never an `Option`; failure short-circuits);
`Mutation` and `Subscription` use the optional accessors. -/
def schema_type_name (schema : SchemaDoc) (definition : Definition) :
    Except String (Option String) :=
  match definition with
  | .fragment fragment => .ok (some fragment.type_condition)
  | .operation operation =>
      match operation with
      | .query _ => (query_type schema).map (fun t => some t.name)
      | .selectionSet _ => (query_type schema).map (fun t => some t.name)
      | .mutation _ => .ok ((mutation_type schema).map (fun t => t.name))
      | .subscription _ => .ok ((subscription_type schema).map (fun t => t.name))

/-- `visit_definitions` (`operation_visitor.rs` lines 133-171): each
definition is visited under `with_type` of its root/condition type name. -/
def visit_definitions (schema : SchemaDoc) (definitions : List Definition) (ctx : VContext) :
    Except String (VContext × List Event) :=
  match definitions with
  | [] => .ok (ctx, [])
  | definition :: rest => do
      let name ← schema_type_name schema definition
      let r1 := with_type schema (name.map (fun v => GType.namedType v)) (fun c =>
          match definition with
          | .fragment fragment => visit_fragment_definition schema fragment c
          | .operation operation => visit_operation_definition schema operation c) ctx
      let r2 ← visit_definitions schema rest r1.1
      .ok (r2.1, r1.2 ++ r2.2)

/-- `visit_document` (`operation_visitor.rs` lines 120-131). -/
def visit_document (schema : SchemaDoc) (document : Document) (ctx : VContext) :
    Except String (VContext × List Event) := do
  let r ← visit_definitions schema document.definitions ctx
  .ok (r.1, ⟨.enterDocument, ctx⟩ :: r.2 ++ [⟨.leaveDocument, r.1⟩])

/-! ## The fragment maps

`OperationVisitorContext::new` (`operation_visitor.rs` lines 37-44) builds
`known_fragments` with `HashMap::from_iter` over the document's fragment
definitions.  `HashMap::from_iter` inserts the pairs left to right and an
insert with an existing key *overwrites* the stored value; `hm_insert` /
`hash_map_from_iter` model exactly that (an association list is a faithful
model of a `HashMap`'s lookup behaviour). -/

def hm_insert (key : String) (value : FragmentDefinition) :
    List (String × FragmentDefinition) → List (String × FragmentDefinition)
  | [] => [(key, value)]
  | entry :: rest =>
      if entry.1 == key then (key, value) :: rest else entry :: hm_insert key value rest

def hash_map_from_iter (l : List (String × FragmentDefinition)) :
    List (String × FragmentDefinition) :=
  l.foldl (fun m kv => hm_insert kv.1 kv.2 m) []

/-- `HashMap::get` on the model. -/
def hm_lookup (key : String) (m : List (String × FragmentDefinition)) :
    Option FragmentDefinition :=
  (m.find? (fun entry => entry.1 == key)).map (fun entry => entry.2)

/-- The pair extracted per document definition by the `filter_map` in
`OperationVisitorContext::new` (`operation_visitor.rs` lines 38-43). -/
def fragment_entry : Definition → Option (String × FragmentDefinition)
  | .fragment fragment => some (fragment.name, fragment)
  | .operation _ => none

/-- `known_fragments` of `OperationVisitorContext::new`
(`operation_visitor.rs` lines 37-44): `HashMap::from_iter` over the
`(name, fragment)` pairs of the document's fragment definitions. -/
def known_fragments (operation : Document) : List (String × FragmentDefinition) :=
  hash_map_from_iter (operation.definitions.filterMap fragment_entry)

/-! ## `src/validation/validate.rs`: the validation driver -/

structure SourcePosition where
  line : Nat
  column : Nat
deriving Repr, DecidableEq

/-- The error model (§4.G): message and source locations. -/
structure ValidationError where
  locations : List SourcePosition
  message : String
deriving Repr, DecidableEq

/-- The `TypeInfoRegistry` built by `validate` from the schema
(`validate.rs` line 38); name lookups delegate to the schema document. -/
structure TypeInfoRegistry where
  schema : SchemaDoc

/-- `ValidationContext` (`validate.rs` lines 39-44). -/
structure ValidationContext where
  operation : Document
  schema : SchemaDoc
  fragments : List (String × FragmentDefinition)
  type_info_registry : Option TypeInfoRegistry

/-- Modelled from the spec: `LocateFragments::locate_fragments`
(component D, declared outside the reviewed sources) — "Pre-pass that
extracts a name→fragment map from the document"; built once per
validation call. -/
def locate_fragments (operation : Document) : List (String × FragmentDefinition) :=
  hash_map_from_iter (operation.definitions.filterMap fragment_entry)

/-- A rule, as `validate` consumes it: `rule.validate(&validation_context)`
yields the rule's error sequence.  The ten concrete rule implementations
are outside the reviewed sources, so a rule is an abstract function. -/
def Rule : Type := ValidationContext → List ValidationError

/-- The context construction of `validate` (`validate.rs` lines 35-44). -/
def mk_validation_context (schema : SchemaDoc) (operation : Document) : ValidationContext :=
  { operation := operation
    schema := schema
    fragments := locate_fragments operation
    type_info_registry := some ⟨schema⟩ }

/-- `validate` (`validate.rs` lines 30-53): build the context once, then
`flat_map` the rules of the plan over it, in plan order. -/
def validate (schema : SchemaDoc) (operation : Document) (validation_plan : List Rule) :
    List ValidationError :=
  let validation_context := mk_validation_context schema operation
  validation_plan.flatMap (fun rule => rule validation_context)

/-! ## `src/validation/rules/defaults.rs`: the default plan -/

/-- The ten concrete rule types registered by
`default_rules_validation_plan`. -/
inductive RuleName where
  | LoneAnonymousOperation
  | KnownTypeNames
  | FieldsOnCorrectType
  | KnownFragmentNamesRule
  | FragmentsOnCompositeTypes
  | OverlappingFieldsCanBeMerged
  | NoUnusedFragments
  | LeafFieldSelections
  | UniqueOperationNames
  | SingleFieldSubscriptions
deriving Repr, DecidableEq

/-- The registration order of `default_rules_validation_plan`
(`defaults.rs` lines 9-24), read off the ten `plan.add_rule` calls. -/
def default_plan_names : List RuleName :=
  [ .LoneAnonymousOperation
  , .KnownTypeNames
  , .FieldsOnCorrectType
  , .KnownFragmentNamesRule
  , .FragmentsOnCompositeTypes
  , .OverlappingFieldsCanBeMerged
  , .NoUnusedFragments
  , .LeafFieldSelections
  , .UniqueOperationNames
  , .SingleFieldSubscriptions ]

/-- `default_rules_validation_plan` (`defaults.rs` lines 9-24), with the
behaviour of each concrete rule abstracted as `rule_sem` (the rule
implementations are outside the reviewed sources). -/
def default_rules_validation_plan (rule_sem : RuleName → Rule) : List Rule :=
  default_plan_names.map rule_sem

/-- The rule order the specification's §4.F.1–§4.F.10 numbering describes
(claim comparison definition, written from the spec's words: the section
order ends with NoUnusedFragments sixth and OverlappingFieldsCanBeMerged
tenth). -/
def spec_section_rule_order : List RuleName :=
  [ .LoneAnonymousOperation
  , .KnownTypeNames
  , .FieldsOnCorrectType
  , .KnownFragmentNamesRule
  , .FragmentsOnCompositeTypes
  , .NoUnusedFragments
  , .LeafFieldSelections
  , .UniqueOperationNames
  , .SingleFieldSubscriptions
  , .OverlappingFieldsCanBeMerged ]

/-! ## Invariant vocabulary and helper lemmas -/

/-- The stacks `with_input_type` does not touch: type, parent-type and
type-literal.  Event snapshots produced during input-value traversal agree
with the surrounding context on these. -/
def outer_stacks_eq (a b : VContext) : Prop :=
  a.type_stack = b.type_stack ∧ a.parent_type_stack = b.parent_type_stack ∧
    a.type_literal_stack = b.type_literal_stack

/-- Claim C2's depth invariant: the type stack and the type-literal stack
have equal depth. -/
def balanced (c : VContext) : Prop :=
  c.type_stack.length = c.type_literal_stack.length

/-- Hook kinds emitted by input-value traversal. -/
def value_phase : EventKind → Bool
  | .enterNullValue | .leaveNullValue => true
  | .enterScalarValue | .leaveScalarValue => true
  | .enterEnumValue _ | .leaveEnumValue _ => true
  | .enterVariableValue _ | .leaveVariableValue _ => true
  | .enterListValue | .leaveListValue => true
  | .enterObjectValue | .leaveObjectValue => true
  | .enterObjectField _ | .leaveObjectField _ => true
  | _ => false

/-- Hook kinds emitted by argument traversal: argument hooks plus
input-value hooks. -/
def argument_phase (k : EventKind) : Bool :=
  match k with
  | .enterArgument _ | .leaveArgument _ => true
  | _ => value_phase k

/-- Hook kinds emitted by directive traversal: directive hooks plus
argument-phase hooks. -/
def directive_phase (k : EventKind) : Bool :=
  match k with
  | .enterDirective _ | .leaveDirective _ => true
  | _ => argument_phase k

/-- Hook kinds emitted by variable-definition traversal:
variable-definition hooks plus input-value hooks — never directive,
field, selection-set or fragment hooks. -/
def vardef_phase (k : EventKind) : Bool :=
  match k with
  | .enterVariableDefinition _ | .leaveVariableDefinition _ => true
  | _ => value_phase k

/-- Combined induction statement for the input-value cluster. -/
def value_trace_ok (base : VContext) (r : VContext × List Event) : Prop :=
  r.1 = base ∧ ∀ e ∈ r.2, outer_stacks_eq e.ctx base ∧ value_phase e.kind = true

/-- Is this event an `enter_directive` or `leave_directive` hook invocation? -/
def is_directive_event : EventKind → Bool
  | .enterDirective _ | .leaveDirective _ => true
  | _ => false

/-- The directive hook invocations of a trace, in order. -/
def directive_events (trace : List Event) : List Event :=
  trace.filter (fun e => is_directive_event e.kind)

/-- Is this event a selection-descent hook (selection set, field or inline
fragment)?  A fragment spread that descended into its target fragment
definition would emit such events. -/
def is_selection_descent_event : EventKind → Bool
  | .enterSelectionSet | .leaveSelectionSet => true
  | .enterField _ | .leaveField _ => true
  | .enterInlineFragment | .leaveInlineFragment => true
  | _ => false

/-- A document whose two fragments spread each other: `fragment A on T
{ ...B }  fragment B on T { ...A }`. -/
def cyclic_document : Document :=
  ⟨[ .fragment ⟨"A", "T", [], .mk (.cons (.fragmentSpread "B" []) .nil)⟩
   , .fragment ⟨"B", "T", [], .mk (.cons (.fragmentSpread "A" []) .nil)⟩ ]⟩

theorem pop_push_input (schema : SchemaDoc) (t : Option GType) (ctx : VContext) :
    pop_input_type (push_input_type schema t ctx) = ctx := rfl

theorem pop_push_type (schema : SchemaDoc) (t : Option GType) (ctx : VContext) :
    pop_type (push_type schema t ctx) = ctx := rfl

theorem pop_push_parent (ctx : VContext) :
    pop_parent_type (push_parent_type ctx) = ctx := rfl

theorem outer_stacks_eq_refl (c : VContext) : outer_stacks_eq c c := ⟨rfl, rfl, rfl⟩

theorem outer_stacks_eq_push_input (schema : SchemaDoc) (t : Option GType) (c : VContext) :
    outer_stacks_eq (push_input_type schema t c) c := ⟨rfl, rfl, rfl⟩

theorem outer_stacks_eq_trans {a b c : VContext}
    (h1 : outer_stacks_eq a b) (h2 : outer_stacks_eq b c) : outer_stacks_eq a c :=
  ⟨h1.1.trans h2.1, h1.2.1.trans h2.2.1, h1.2.2.trans h2.2.2⟩

theorem balanced_of_outer_stacks_eq {a b : VContext}
    (h : outer_stacks_eq a b) (hb : balanced b) : balanced a := by
  unfold balanced
  rw [h.1, h.2.2]
  exact hb

theorem balanced_push_type (schema : SchemaDoc) (t : Option GType) {c : VContext}
    (h : balanced c) : balanced (push_type schema t c) := by
  unfold balanced push_type
  simpa using h

theorem balanced_push_parent {c : VContext} (h : balanced c) :
    balanced (push_parent_type c) := h

theorem balanced_push_input (schema : SchemaDoc) (t : Option GType) {c : VContext}
    (h : balanced c) : balanced (push_input_type schema t c) := h

/-! ## Preservation and snapshot lemmas: input-value traversal -/

mutual
theorem visit_input_value_ok (schema : SchemaDoc) (v : Value) (ctx : VContext) :
    value_trace_ok ctx (visit_input_value schema v ctx) := by
  cases v with
  | listValue items =>
      obtain ⟨ih1, ih2⟩ := visit_value_list_ok schema items
        (push_input_type schema ((current_input_type_literal ctx).bind (fun t => match t with
          | .listType inner => some inner
          | _ => none)) ctx)
      simp only [value_trace_ok, visit_input_value, with_input_type]
      rw [ih1, pop_push_input]
      refine ⟨rfl, ?_⟩
      intro e he
      simp only [List.mem_cons, List.mem_append, List.mem_singleton, List.not_mem_nil, or_false] at he
      rcases he with (rfl | h) | rfl
      · exact ⟨outer_stacks_eq_refl ctx, rfl⟩
      · exact ⟨outer_stacks_eq_trans (ih2 e h).1 (outer_stacks_eq_push_input ..), (ih2 e h).2⟩
      · exact ⟨outer_stacks_eq_refl ctx, rfl⟩
  | objectValue fields =>
      obtain ⟨ih1, ih2⟩ := visit_object_fields_ok schema fields ctx
      simp only [value_trace_ok, visit_input_value]
      rw [ih1]
      refine ⟨rfl, ?_⟩
      intro e he
      simp only [List.mem_cons, List.mem_append, List.mem_singleton, List.not_mem_nil, or_false] at he
      rcases he with (rfl | h) | rfl
      · exact ⟨outer_stacks_eq_refl ctx, rfl⟩
      · exact ih2 e h
      · exact ⟨outer_stacks_eq_refl ctx, rfl⟩
  | variableValue v =>
      refine ⟨rfl, ?_⟩
      intro e he
      simp only [visit_input_value, List.mem_cons, List.not_mem_nil, or_false] at he
      rcases he with rfl | rfl <;> exact ⟨outer_stacks_eq_refl ctx, rfl⟩
  | intValue v =>
      refine ⟨rfl, ?_⟩
      intro e he
      simp only [visit_input_value, List.mem_cons, List.not_mem_nil, or_false] at he
      rcases he with rfl | rfl <;> exact ⟨outer_stacks_eq_refl ctx, rfl⟩
  | floatValue v =>
      refine ⟨rfl, ?_⟩
      intro e he
      simp only [visit_input_value, List.mem_cons, List.not_mem_nil, or_false] at he
      rcases he with rfl | rfl <;> exact ⟨outer_stacks_eq_refl ctx, rfl⟩
  | stringValue v =>
      refine ⟨rfl, ?_⟩
      intro e he
      simp only [visit_input_value, List.mem_cons, List.not_mem_nil, or_false] at he
      rcases he with rfl | rfl <;> exact ⟨outer_stacks_eq_refl ctx, rfl⟩
  | booleanValue v =>
      refine ⟨rfl, ?_⟩
      intro e he
      simp only [visit_input_value, List.mem_cons, List.not_mem_nil, or_false] at he
      rcases he with rfl | rfl <;> exact ⟨outer_stacks_eq_refl ctx, rfl⟩
  | nullValue =>
      refine ⟨rfl, ?_⟩
      intro e he
      simp only [visit_input_value, List.mem_cons, List.not_mem_nil, or_false] at he
      rcases he with rfl | rfl <;> exact ⟨outer_stacks_eq_refl ctx, rfl⟩
  | enumValue v =>
      refine ⟨rfl, ?_⟩
      intro e he
      simp only [visit_input_value, List.mem_cons, List.not_mem_nil, or_false] at he
      rcases he with rfl | rfl <;> exact ⟨outer_stacks_eq_refl ctx, rfl⟩

theorem visit_value_list_ok (schema : SchemaDoc) (items : ValueList) (ctx : VContext) :
    value_trace_ok ctx (visit_value_list schema items ctx) := by
  cases items with
  | nil =>
      exact ⟨rfl, by intro e he; simp [visit_value_list] at he⟩
  | cons item rest =>
      have ih1 := visit_input_value_ok schema item ctx
      have h1 : (visit_input_value schema item ctx).1 = ctx := ih1.1
      have ih2 := visit_value_list_ok schema rest (visit_input_value schema item ctx).1
      simp only [value_trace_ok, visit_value_list] at ih2 ⊢
      refine ⟨by rw [ih2.1, h1], ?_⟩
      intro e he
      simp only [List.mem_append] at he
      rcases he with h | h
      · exact ih1.2 e h
      · have := ih2.2 e h
        rw [h1] at this
        exact this

theorem visit_object_fields_ok (schema : SchemaDoc) (fields : ObjectValueFields)
    (ctx : VContext) : value_trace_ok ctx (visit_object_fields schema fields ctx) := by
  cases fields with
  | nil =>
      exact ⟨rfl, by intro e he; simp [visit_object_fields] at he⟩
  | cons sub_key sub_value rest =>
      have ihv := visit_input_value_ok schema sub_value
        (push_input_type schema ((((current_input_type_literal ctx).bind
            (fun v => type_by_name schema (inner_type v))).bind
            (fun v => input_field_by_name v sub_key)).map (fun v => v.value_type)) ctx)
      set c0 := push_input_type schema ((((current_input_type_literal ctx).bind
            (fun v => type_by_name schema (inner_type v))).bind
            (fun v => input_field_by_name v sub_key)).map (fun v => v.value_type)) ctx with hc0
      have h1 : (visit_input_value schema sub_value c0).1 = c0 := ihv.1
      have hrec := visit_object_fields_ok schema rest ctx
      simp only [value_trace_ok, visit_object_fields, with_input_type] at hrec ⊢
      rw [← hc0, h1]
      have hpop : pop_input_type c0 = ctx := pop_push_input ..
      refine ⟨by rw [hpop, hrec.1], ?_⟩
      intro e he
      simp only [List.mem_append, List.mem_cons, List.mem_singleton, List.not_mem_nil, or_false] at he
      have hout : outer_stacks_eq c0 ctx := outer_stacks_eq_push_input ..
      rcases he with ((rfl | h) | rfl) | h
      · exact ⟨hout, rfl⟩
      · exact ⟨outer_stacks_eq_trans (ihv.2 e h).1 hout, (ihv.2 e h).2⟩
      · exact ⟨hout, rfl⟩
      · exact hrec.2 e h
end

theorem argument_phase_of_value {k : EventKind} (h : value_phase k = true) :
    argument_phase k = true := by
  cases k <;> simp_all [argument_phase, value_phase]

theorem directive_phase_of_argument {k : EventKind} (h : argument_phase k = true) :
    directive_phase k = true := by
  cases k <;> simp_all [directive_phase, argument_phase, value_phase]

theorem vardef_phase_of_value {k : EventKind} (h : value_phase k = true) :
    vardef_phase k = true := by
  cases k <;> simp_all [vardef_phase, value_phase]

/-! ## Preservation and snapshot lemmas: arguments, directives, variables -/

theorem visit_arguments_ok (schema : SchemaDoc) (defs : Option (List InputValue))
    (args : List (String × Value)) (ctx : VContext) :
    (visit_arguments schema defs args ctx).1 = ctx ∧
      ∀ e ∈ (visit_arguments schema defs args ctx).2,
        outer_stacks_eq e.ctx ctx ∧ argument_phase e.kind = true := by
  induction args generalizing ctx with
  | nil => exact ⟨rfl, by intro e he; simp [visit_arguments] at he⟩
  | cons argument rest ih =>
      set c0 := push_input_type schema ((defs.bind (fun argument_defs =>
        argument_defs.find? (fun a => a.name == argument.1))).map
          (fun a => a.value_type)) ctx with hc0
      obtain ⟨h1, h2⟩ := visit_input_value_ok schema argument.2 c0
      have hrec := ih ctx
      simp only [visit_arguments, with_input_type] at hrec ⊢
      rw [← hc0, h1]
      have hpop : pop_input_type c0 = ctx := pop_push_input ..
      refine ⟨by rw [hpop, hrec.1], ?_⟩
      intro e he
      simp only [List.mem_append, List.mem_cons, List.mem_singleton, List.not_mem_nil,
        or_false] at he
      have hout : outer_stacks_eq c0 ctx := outer_stacks_eq_push_input ..
      rcases he with ((rfl | h) | rfl) | h
      · exact ⟨hout, rfl⟩
      · exact ⟨outer_stacks_eq_trans (h2 e h).1 hout, argument_phase_of_value (h2 e h).2⟩
      · exact ⟨hout, rfl⟩
      · rw [hpop] at h
        exact hrec.2 e h

theorem visit_directives_ok (schema : SchemaDoc) (directives : List Directive)
    (ctx : VContext) :
    (visit_directives schema directives ctx).1 = ctx ∧
      ∀ e ∈ (visit_directives schema directives ctx).2,
        outer_stacks_eq e.ctx ctx ∧ directive_phase e.kind = true := by
  induction directives generalizing ctx with
  | nil => exact ⟨rfl, by intro e he; simp [visit_directives] at he⟩
  | cons directive rest ih =>
      obtain ⟨h1, h2⟩ := visit_arguments_ok schema
        ((directive_by_name schema directive.name).map (fun d => d.arguments))
        directive.arguments ctx
      have hrec := ih ctx
      simp only [visit_directives] at hrec ⊢
      rw [h1]
      refine ⟨hrec.1, ?_⟩
      intro e he
      simp only [List.mem_append, List.mem_cons, List.mem_singleton, List.not_mem_nil,
        or_false] at he
      rcases he with ((rfl | h) | rfl) | h
      · exact ⟨outer_stacks_eq_refl ctx, rfl⟩
      · exact ⟨(h2 e h).1, directive_phase_of_argument (h2 e h).2⟩
      · exact ⟨outer_stacks_eq_refl ctx, rfl⟩
      · exact hrec.2 e h

theorem visit_variable_definitions_ok (schema : SchemaDoc)
    (var_defs : List VariableDefinition) (ctx : VContext) :
    (visit_variable_definitions schema var_defs ctx).1 = ctx ∧
      ∀ e ∈ (visit_variable_definitions schema var_defs ctx).2,
        outer_stacks_eq e.ctx ctx ∧ vardef_phase e.kind = true := by
  induction var_defs generalizing ctx with
  | nil => exact ⟨rfl, by intro e he; simp [visit_variable_definitions] at he⟩
  | cons var_def rest ih =>
      set c0 := push_input_type schema (some var_def.var_type) ctx with hc0
      obtain ⟨h1, h2⟩ := visit_input_value_ok schema (var_def.default_value.getD .nullValue) c0
      have hrec := ih ctx
      have hout : outer_stacks_eq c0 ctx := outer_stacks_eq_push_input ..
      have hpop : pop_input_type c0 = ctx := pop_push_input ..
      cases hdef : var_def.default_value with
      | none =>
          simp only [visit_variable_definitions, with_input_type, hdef] at hrec ⊢
          rw [← hc0, hpop]
          refine ⟨hrec.1, ?_⟩
          intro e he
          simp only [List.mem_append, List.mem_cons, List.mem_singleton, List.not_mem_nil,
            or_false] at he
          rcases he with (rfl | rfl) | h
          · exact ⟨hout, rfl⟩
          · exact ⟨hout, rfl⟩
          · exact hrec.2 e h
      | some default_value =>
          obtain ⟨h1, h2⟩ := visit_input_value_ok schema default_value c0
          simp only [visit_variable_definitions, with_input_type, hdef] at hrec ⊢
          rw [← hc0, h1, hpop]
          refine ⟨hrec.1, ?_⟩
          intro e he
          simp only [List.mem_append, List.mem_cons, List.mem_singleton, List.not_mem_nil,
            or_false] at he
          rcases he with ((rfl | h) | rfl) | h
          · exact ⟨hout, rfl⟩
          · exact ⟨outer_stacks_eq_trans (h2 e h).1 hout, vardef_phase_of_value (h2 e h).2⟩
          · exact ⟨hout, rfl⟩
          · exact hrec.2 e h

/-! ## Preservation and balance lemmas: selections -/

mutual
theorem visit_selection_ok (schema : SchemaDoc) (selection : Selection) (ctx : VContext) :
    (visit_selection schema selection ctx).1 = ctx ∧
      (balanced ctx → ∀ e ∈ (visit_selection schema selection ctx).2, balanced e.ctx) := by
  cases selection with
  | field field_alias name args dirs sset =>
      simp only [visit_selection, with_type]
      obtain ⟨ha1, ha2⟩ := visit_arguments_ok schema
        (((current_parent_type ctx).bind (fun t => field_by_name t name)).map
          (fun f => f.arguments)) args
        (push_type schema
          (((current_parent_type ctx).bind (fun t => field_by_name t name)).map
            (fun f => f.field_type)) ctx)
      rw [ha1]
      obtain ⟨hd1, hd2⟩ := visit_directives_ok schema dirs
        (push_type schema
          (((current_parent_type ctx).bind (fun t => field_by_name t name)).map
            (fun f => f.field_type)) ctx)
      rw [hd1]
      obtain ⟨hs1, hs2⟩ := visit_selection_set_ok schema sset
        (push_type schema
          (((current_parent_type ctx).bind (fun t => field_by_name t name)).map
            (fun f => f.field_type)) ctx)
      rw [hs1, pop_push_type]
      refine ⟨rfl, ?_⟩
      intro hb e he
      have hb0 : balanced (push_type schema
          (((current_parent_type ctx).bind (fun t => field_by_name t name)).map
            (fun f => f.field_type)) ctx) := balanced_push_type _ _ hb
      simp only [List.mem_append, List.mem_cons, List.mem_singleton, List.not_mem_nil,
        or_false] at he
      rcases he with (rfl | (h | h) | h) | rfl
      · exact hb0
      · exact balanced_of_outer_stacks_eq (ha2 e h).1 hb0
      · exact balanced_of_outer_stacks_eq (hd2 e h).1 hb0
      · exact hs2 hb0 e h
      · exact hb0
  | fragmentSpread fragment_name dirs =>
      simp only [visit_selection]
      obtain ⟨hd1, hd2⟩ := visit_directives_ok schema dirs ctx
      rw [hd1]
      refine ⟨rfl, ?_⟩
      intro hb e he
      simp only [List.mem_append, List.mem_cons, List.mem_singleton, List.not_mem_nil,
        or_false] at he
      rcases he with (rfl | h) | rfl
      · exact hb
      · exact balanced_of_outer_stacks_eq (hd2 e h).1 hb
      · exact hb
  | inlineFragment type_condition dirs sset =>
      cases type_condition with
      | some fragment_condition =>
          simp only [visit_selection, with_type]
          obtain ⟨hd1, hd2⟩ := visit_directives_ok schema dirs
            (push_type schema (some (GType.namedType fragment_condition)) ctx)
          rw [hd1]
          obtain ⟨hs1, hs2⟩ := visit_selection_set_ok schema sset
            (push_type schema (some (GType.namedType fragment_condition)) ctx)
          rw [hs1, pop_push_type]
          refine ⟨rfl, ?_⟩
          intro hb e he
          have hb0 : balanced (push_type schema (some (GType.namedType fragment_condition)) ctx) :=
            balanced_push_type _ _ hb
          simp only [List.mem_append, List.mem_cons, List.mem_singleton, List.not_mem_nil,
            or_false] at he
          rcases he with (rfl | h | h) | rfl
          · exact hb0
          · exact balanced_of_outer_stacks_eq (hd2 e h).1 hb0
          · exact hs2 hb0 e h
          · exact hb0
      | none =>
          simp only [visit_selection]
          obtain ⟨hd1, hd2⟩ := visit_directives_ok schema dirs ctx
          rw [hd1]
          obtain ⟨hs1, hs2⟩ := visit_selection_set_ok schema sset ctx
          rw [hs1]
          refine ⟨rfl, ?_⟩
          intro hb e he
          simp only [List.mem_append, List.mem_cons, List.mem_singleton, List.not_mem_nil,
            or_false] at he
          rcases he with (rfl | h | h) | rfl
          · exact hb
          · exact balanced_of_outer_stacks_eq (hd2 e h).1 hb
          · exact hs2 hb e h
          · exact hb

theorem visit_selection_list_ok (schema : SchemaDoc) (items : SelectionList) (ctx : VContext) :
    (visit_selection_list schema items ctx).1 = ctx ∧
      (balanced ctx → ∀ e ∈ (visit_selection_list schema items ctx).2, balanced e.ctx) := by
  cases items with
  | nil => exact ⟨rfl, by intro _ e he; simp [visit_selection_list] at he⟩
  | cons selection rest =>
      simp only [visit_selection_list]
      obtain ⟨h1, h2⟩ := visit_selection_ok schema selection ctx
      rw [h1]
      obtain ⟨hr1, hr2⟩ := visit_selection_list_ok schema rest ctx
      rw [hr1]
      refine ⟨rfl, ?_⟩
      intro hb e he
      simp only [List.mem_append] at he
      rcases he with h | h
      · exact h2 hb e h
      · exact hr2 hb e h

theorem visit_selection_set_ok (schema : SchemaDoc) (sset : SelectionSet) (ctx : VContext) :
    (visit_selection_set schema sset ctx).1 = ctx ∧
      (balanced ctx → ∀ e ∈ (visit_selection_set schema sset ctx).2, balanced e.ctx) := by
  cases sset with
  | mk items =>
      simp only [visit_selection_set, with_parent_type]
      obtain ⟨h1, h2⟩ := visit_selection_list_ok schema items (push_parent_type ctx)
      rw [h1, pop_push_parent]
      refine ⟨rfl, ?_⟩
      intro hb e he
      have hb0 : balanced (push_parent_type ctx) := balanced_push_parent hb
      simp only [List.mem_append, List.mem_cons, List.mem_singleton, List.not_mem_nil,
        or_false] at he
      rcases he with (rfl | h) | rfl
      · exact hb0
      · exact h2 hb0 e h
      · exact hb0
end

/-! ## Preservation and balance lemmas: definitions and document -/

theorem visit_fragment_definition_ok (schema : SchemaDoc) (fragment : FragmentDefinition)
    (ctx : VContext) :
    (visit_fragment_definition schema fragment ctx).1 = ctx ∧
      (balanced ctx → ∀ e ∈ (visit_fragment_definition schema fragment ctx).2, balanced e.ctx) := by
  simp only [visit_fragment_definition]
  obtain ⟨hd1, hd2⟩ := visit_directives_ok schema fragment.directives ctx
  rw [hd1]
  obtain ⟨hs1, hs2⟩ := visit_selection_set_ok schema fragment.selection_set ctx
  rw [hs1]
  refine ⟨rfl, ?_⟩
  intro hb e he
  simp only [List.mem_append, List.mem_cons, List.mem_singleton, List.not_mem_nil,
    or_false] at he
  rcases he with (rfl | h | h) | rfl
  · exact hb
  · exact balanced_of_outer_stacks_eq (hd2 e h).1 hb
  · exact hs2 hb e h
  · exact hb

theorem visit_operation_definition_ok (schema : SchemaDoc) (operation : OperationDefinition)
    (ctx : VContext) :
    (visit_operation_definition schema operation ctx).1 = ctx ∧
      (balanced ctx →
        ∀ e ∈ (visit_operation_definition schema operation ctx).2, balanced e.ctx) := by
  simp only [visit_operation_definition]
  obtain ⟨hv1, hv2⟩ := visit_variable_definitions_ok schema operation.variable_definitions ctx
  rw [hv1]
  obtain ⟨hs1, hs2⟩ := visit_selection_set_ok schema operation.selection_set ctx
  rw [hs1]
  refine ⟨rfl, ?_⟩
  intro hb e he
  simp only [List.mem_append, List.mem_cons, List.mem_singleton, List.not_mem_nil,
    or_false] at he
  rcases he with (rfl | h | h) | rfl
  · exact hb
  · exact balanced_of_outer_stacks_eq (hv2 e h).1 hb
  · exact hs2 hb e h
  · exact hb

theorem except_bind_ok {α β : Type} (a : α) (f : α → Except String β) :
    (Except.ok a >>= f) = f a := rfl

theorem except_bind_error {α β : Type} (msg : String) (f : α → Except String β) :
    ((Except.error msg : Except String α) >>= f) = Except.error msg := rfl

theorem visit_definitions_ok (schema : SchemaDoc) (defs : List Definition) (ctx : VContext)
    (r : VContext × List Event) (h : visit_definitions schema defs ctx = .ok r) :
    r.1 = ctx ∧ (balanced ctx → ∀ e ∈ r.2, balanced e.ctx) := by
  induction defs generalizing ctx r with
  | nil =>
      simp only [visit_definitions, Except.ok.injEq] at h
      subst h
      exact ⟨rfl, by intro _ e he; simp at he⟩
  | cons definition rest ih =>
      simp only [visit_definitions] at h
      cases hst : schema_type_name schema definition with
      | error msg =>
          rw [hst, except_bind_error] at h
          exact Except.noConfusion h
      | ok nm =>
          rw [hst, except_bind_ok] at h
          have hbody : ∀ c : VContext,
              ((match definition with
                | .fragment fragment => visit_fragment_definition schema fragment c
                | .operation operation => visit_operation_definition schema operation c)).1 = c ∧
              (balanced c →
                ∀ e ∈ ((match definition with
                  | .fragment fragment => visit_fragment_definition schema fragment c
                  | .operation operation => visit_operation_definition schema operation c)).2,
                  balanced e.ctx) := by
            intro c
            cases definition with
            | fragment fragment => exact visit_fragment_definition_ok schema fragment c
            | operation operation => exact visit_operation_definition_ok schema operation c
          obtain ⟨hb1, hb2⟩ := hbody (push_type schema (nm.map (fun v => GType.namedType v)) ctx)
          simp only [with_type] at h
          rw [hb1, pop_push_type] at h
          cases hrec : visit_definitions schema rest ctx with
          | error msg =>
              rw [hrec, except_bind_error] at h
              exact Except.noConfusion h
          | ok r2 =>
              rw [hrec, except_bind_ok] at h
              simp only [Except.ok.injEq] at h
              subst h
              obtain ⟨hr1, hr2⟩ := ih ctx r2 hrec
              refine ⟨hr1, ?_⟩
              intro hb e he
              simp only [List.mem_append] at he
              rcases he with he | he
              · exact hb2 (balanced_push_type _ _ hb) e he
              · exact hr2 hb e he

theorem visit_document_ok (schema : SchemaDoc) (document : Document) (ctx : VContext)
    (r : VContext × List Event) (h : visit_document schema document ctx = .ok r) :
    r.1 = ctx ∧ (balanced ctx → ∀ e ∈ r.2, balanced e.ctx) := by
  simp only [visit_document] at h
  cases hdefs : visit_definitions schema document.definitions ctx with
  | error msg =>
      rw [hdefs, except_bind_error] at h
      exact Except.noConfusion h
  | ok r1 =>
      rw [hdefs, except_bind_ok] at h
      simp only [Except.ok.injEq] at h
      subst h
      obtain ⟨h1, h2⟩ := visit_definitions_ok schema document.definitions ctx r1 hdefs
      refine ⟨h1, ?_⟩
      intro hb e he
      simp only [List.mem_append, List.mem_cons, List.mem_singleton, List.not_mem_nil,
        or_false] at he
      rcases he with (rfl | he) | rfl
      · exact hb
      · exact h2 hb e he
      · rw [h1]; exact hb

/-! ## Trace decomposition and phase-separation helpers -/

/-- Because every `visit_selection` restores the context, each item of a
selection list is visited in the same context as the first one. -/
theorem visit_selection_list_trace (schema : SchemaDoc) (items : SelectionList)
    (ctx : VContext) :
    (visit_selection_list schema items ctx).2 =
      items.toList.flatMap (fun s => (visit_selection schema s ctx).2) := by
  cases items with
  | nil => simp [visit_selection_list, SelectionList.toList]
  | cons selection rest =>
      simp only [visit_selection_list, SelectionList.toList, List.flatMap_cons]
      rw [(visit_selection_ok schema selection ctx).1,
        visit_selection_list_trace schema rest ctx]

theorem not_directive_of_value_phase {k : EventKind} (h : value_phase k = true) :
    is_directive_event k = false := by
  cases k <;> simp_all [value_phase, is_directive_event]

theorem not_directive_of_vardef_phase {k : EventKind} (h : vardef_phase k = true) :
    is_directive_event k = false := by
  cases k <;> simp_all [vardef_phase, value_phase, is_directive_event]

theorem not_selection_descent_of_directive_phase {k : EventKind}
    (h : directive_phase k = true) : is_selection_descent_event k = false := by
  cases k <;> simp_all [directive_phase, argument_phase, value_phase,
    is_selection_descent_event]

/-- Variable-definition traversal never invokes a directive hook. -/
theorem directive_events_vardefs (schema : SchemaDoc) (var_defs : List VariableDefinition)
    (ctx : VContext) :
    directive_events (visit_variable_definitions schema var_defs ctx).2 = [] := by
  unfold directive_events
  rw [List.filter_eq_nil_iff]
  intro e he
  have := (visit_variable_definitions_ok schema var_defs ctx).2 e he
  simp [not_directive_of_vardef_phase this.2]

/-! ## HashMap model lemmas -/

theorem hm_lookup_insert (k key : String) (value : FragmentDefinition)
    (m : List (String × FragmentDefinition)) :
    hm_lookup k (hm_insert key value m) =
      if key == k then some value else hm_lookup k m := by
  induction m with
  | nil =>
      by_cases h : key = k <;> simp [hm_insert, hm_lookup, h]
  | cons entry rest ih =>
      by_cases h1 : entry.1 = key
      · by_cases h2 : key = k
        · simp [hm_insert, hm_lookup, List.find?, h1, h2]
        · have hb2 : (key == k) = false := by simpa using h2
          have hb1 : (entry.1 == k) = false := by rw [h1]; exact hb2
          simp [hm_insert, hm_lookup, List.find?, h1, hb1, hb2]
      · have hbne : (entry.1 == key) = false := by simpa using h1
        by_cases h2 : key = k
        · have hb1 : (entry.1 == k) = false := by simpa [← h2] using h1
          simp [hm_insert, hm_lookup, List.find?, hbne, hb1, h2] at ih ⊢
          simpa [hm_lookup] using ih
        · have hb2 : (key == k) = false := by simpa using h2
          by_cases h3 : entry.1 = k
          · have hb3 : (entry.1 == k) = true := by simpa using h3
            simp [hm_insert, hm_lookup, List.find?, hbne, hb2, hb3]
          · have hb3 : (entry.1 == k) = false := by simpa using h3
            simp only [hm_insert, hbne, if_neg, Bool.false_eq_true, hm_lookup, List.find?,
              hb3, hb2] at ih ⊢
            simpa [hm_lookup, hb2] using ih

theorem hm_mem_keys_insert (k key : String) (value : FragmentDefinition)
    (m : List (String × FragmentDefinition)) :
    k ∈ (hm_insert key value m).map (fun e => e.1) ↔
      k = key ∨ k ∈ m.map (fun e => e.1) := by
  induction m with
  | nil => simp [hm_insert]
  | cons entry rest ih =>
      by_cases h1 : entry.1 = key
      · have hb1 : (entry.1 == key) = true := by simpa using h1
        simp only [hm_insert]
        rw [if_pos hb1]
        simp only [List.map_cons, List.mem_cons, h1]
        tauto
      · have hb1 : (entry.1 == key) = false := by simpa using h1
        simp only [hm_insert]
        rw [if_neg (by simp [hb1])]
        simp only [List.map_cons, List.mem_cons, ih]
        tauto

theorem hm_keys_nodup_insert (key : String) (value : FragmentDefinition)
    (m : List (String × FragmentDefinition)) (h : (m.map (fun e => e.1)).Nodup) :
    ((hm_insert key value m).map (fun e => e.1)).Nodup := by
  induction m with
  | nil => simp [hm_insert]
  | cons entry rest ih =>
      simp only [List.map_cons, List.nodup_cons] at h
      by_cases h1 : entry.1 = key
      · have hb1 : (entry.1 == key) = true := by simpa using h1
        simp only [hm_insert]
        rw [if_pos hb1]
        simp only [List.map_cons, List.nodup_cons]
        exact ⟨h1 ▸ h.1, h.2⟩
      · have hb1 : (entry.1 == key) = false := by simpa using h1
        simp only [hm_insert]
        rw [if_neg (by simp [hb1])]
        simp only [List.map_cons, List.nodup_cons]
        refine ⟨?_, ih h.2⟩
        rw [hm_mem_keys_insert]
        rintro (h' | h')
        · exact h1 h'
        · exact h.1 h'

theorem hm_lookup_foldl (l : List (String × FragmentDefinition))
    (m : List (String × FragmentDefinition)) (k : String) :
    hm_lookup k (l.foldl (fun m kv => hm_insert kv.1 kv.2 m) m) =
      ((l.reverse.find? (fun p => p.1 == k)).map (fun p => p.2)).or (hm_lookup k m) := by
  induction l generalizing m with
  | nil => simp
  | cons a l ih =>
      rw [List.foldl_cons, ih, List.reverse_cons, List.find?_append]
      cases hf : List.find? (fun p => p.1 == k) l.reverse with
      | some val => simp [hf]
      | none =>
          simp only [hf, Option.none_or, Option.map_none, hm_lookup_insert]
          by_cases h : a.1 == k <;> simp [List.find?, h]

theorem hash_map_keys_nodup_foldl (l : List (String × FragmentDefinition))
    (m : List (String × FragmentDefinition)) (h : (m.map (fun e => e.1)).Nodup) :
    (((l.foldl (fun m kv => hm_insert kv.1 kv.2 m) m)).map (fun e => e.1)).Nodup := by
  induction l generalizing m with
  | nil => exact h
  | cons a l ih => exact ih _ (hm_keys_nodup_insert a.1 a.2 m h)

/-! ## Claim theorems -/

/-- C1 (counterexample): the default validation plan does NOT register the
ten rules in the spec's §4.F.1–§4.F.10 section order — `defaults.rs`
registers OverlappingFieldsCanBeMerged sixth, not tenth. -/
theorem c1_counterexample : default_plan_names ≠ spec_section_rule_order := by
  decide

/-- C1 (amended): the default plan runs the ten rules in the `defaults.rs`
registration order — LoneAnonymousOperation, KnownTypeNames,
FieldsOnCorrectType, KnownFragmentNames, FragmentsOnCompositeTypes,
OverlappingFieldsCanBeMerged, NoUnusedFragments, LeafFieldSelections,
UniqueOperationNames, SingleFieldSubscriptions — and `validate`
concatenates each rule's errors in exactly that order, so errors of a rule
earlier in that list precede errors of a later one. -/
theorem c1_default_plan_order (rule_sem : RuleName → Rule) (schema : SchemaDoc)
    (operation : Document) :
    validate schema operation (default_rules_validation_plan rule_sem) =
      rule_sem .LoneAnonymousOperation (mk_validation_context schema operation) ++
      (rule_sem .KnownTypeNames (mk_validation_context schema operation) ++
      (rule_sem .FieldsOnCorrectType (mk_validation_context schema operation) ++
      (rule_sem .KnownFragmentNamesRule (mk_validation_context schema operation) ++
      (rule_sem .FragmentsOnCompositeTypes (mk_validation_context schema operation) ++
      (rule_sem .OverlappingFieldsCanBeMerged (mk_validation_context schema operation) ++
      (rule_sem .NoUnusedFragments (mk_validation_context schema operation) ++
      (rule_sem .LeafFieldSelections (mk_validation_context schema operation) ++
      (rule_sem .UniqueOperationNames (mk_validation_context schema operation) ++
      rule_sem .SingleFieldSubscriptions (mk_validation_context schema operation))))))))) := by
  simp [validate, default_rules_validation_plan, default_plan_names]

/-- C2: `with_type`, `with_parent_type` and `with_input_type` pop exactly
what they pushed whenever their body restores the stacks (as every walker
body does); the type stack and the type-literal stack have equal depth at
every hook invocation of `visit_document` started from the fresh context;
and when `visit_document` returns, all five stacks are empty. -/
theorem c2_stack_discipline :
    (∀ (schema : SchemaDoc) (t : Option GType) (body : VContext → VContext × List Event)
        (ctx : VContext), (∀ c, (body c).1 = c) → (with_type schema t body ctx).1 = ctx) ∧
    (∀ (body : VContext → VContext × List Event) (ctx : VContext),
        (∀ c, (body c).1 = c) → (with_parent_type body ctx).1 = ctx) ∧
    (∀ (schema : SchemaDoc) (t : Option GType) (body : VContext → VContext × List Event)
        (ctx : VContext), (∀ c, (body c).1 = c) → (with_input_type schema t body ctx).1 = ctx) ∧
    (∀ (schema : SchemaDoc) (document : Document) (r : VContext × List Event),
        visit_document schema document initial_context = .ok r →
          (r.1.type_stack = [] ∧ r.1.parent_type_stack = [] ∧ r.1.input_type_stack = [] ∧
            r.1.type_literal_stack = [] ∧ r.1.input_type_literal_stack = []) ∧
          ∀ e ∈ r.2, e.ctx.type_stack.length = e.ctx.type_literal_stack.length) := by
  refine ⟨?_, ?_, ?_, ?_⟩
  · intro schema t body ctx hpres
    simp only [with_type, hpres, pop_push_type]
  · intro body ctx hpres
    simp only [with_parent_type, hpres, pop_push_parent]
  · intro schema t body ctx hpres
    simp only [with_input_type, hpres, pop_push_input]
  · intro schema document r h
    obtain ⟨h1, h2⟩ := visit_document_ok schema document initial_context r h
    refine ⟨by rw [h1]; exact ⟨rfl, rfl, rfl, rfl, rfl⟩, ?_⟩
    intro e he
    exact h2 rfl e he

/-- Witness for C2 at concrete inputs: an identity body and the empty
document. -/
theorem c2_stack_discipline_witness :
    (with_type ⟨[]⟩ none (fun c => (c, [])) initial_context).1 = initial_context ∧
    (with_parent_type (fun c => (c, [])) initial_context).1 = initial_context ∧
    (with_input_type ⟨[]⟩ none (fun c => (c, [])) initial_context).1 = initial_context ∧
    ((initial_context.type_stack = [] ∧ initial_context.parent_type_stack = [] ∧
        initial_context.input_type_stack = [] ∧ initial_context.type_literal_stack = [] ∧
        initial_context.input_type_literal_stack = []) ∧
      ∀ e ∈ [Event.mk .enterDocument initial_context, Event.mk .leaveDocument initial_context],
        e.ctx.type_stack.length = e.ctx.type_literal_stack.length) :=
  ⟨c2_stack_discipline.1 ⟨[]⟩ none (fun c => (c, [])) initial_context (fun _ => rfl),
   c2_stack_discipline.2.1 (fun c => (c, [])) initial_context (fun _ => rfl),
   c2_stack_discipline.2.2.1 ⟨[]⟩ none (fun c => (c, [])) initial_context (fun _ => rfl),
   c2_stack_discipline.2.2.2 ⟨[]⟩ ⟨[]⟩
     (initial_context,
       [Event.mk .enterDocument initial_context, Event.mk .leaveDocument initial_context])
     rfl⟩

/-- C3: visiting a fragment spread emits `enter_fragment_spread`, the
directive traversal, and `leave_fragment_spread`; it restores the context,
leaves the type and type-literal stacks untouched in every emitted
snapshot, emits no selection-descent hook from the directive traversal
(so it never recurses into the named fragment's definition), and
`visit_document` evaluates to a finite trace even on a document whose
fragments spread each other cyclically. -/
theorem c3_fragment_spread_no_descent (schema : SchemaDoc) (fragment_name : String)
    (dirs : List Directive) (ctx : VContext) :
    (visit_selection schema (.fragmentSpread fragment_name dirs) ctx).1 = ctx ∧
    (visit_selection schema (.fragmentSpread fragment_name dirs) ctx).2 =
      ⟨.enterFragmentSpread fragment_name, ctx⟩ ::
        (visit_directives schema dirs ctx).2 ++
        [⟨.leaveFragmentSpread fragment_name, ctx⟩] ∧
    (∀ e ∈ (visit_selection schema (.fragmentSpread fragment_name dirs) ctx).2,
        e.ctx.type_stack = ctx.type_stack ∧
        e.ctx.type_literal_stack = ctx.type_literal_stack) ∧
    (∀ e ∈ (visit_directives schema dirs ctx).2,
        is_selection_descent_event e.kind = false) ∧
    (visit_document ⟨[]⟩ cyclic_document initial_context).map
        (fun r => (r.1, r.2.length)) = Except.ok (initial_context, 14) := by
  obtain ⟨hd1, hd2⟩ := visit_directives_ok schema dirs ctx
  refine ⟨?_, ?_, ?_, ?_, rfl⟩
  · simp only [visit_selection]
    exact hd1
  · simp only [visit_selection]
    rw [hd1]
  · intro e he
    simp only [visit_selection, List.mem_append, List.mem_cons, List.mem_singleton,
      List.not_mem_nil, or_false] at he
    rcases he with (rfl | h) | rfl
    · exact ⟨rfl, rfl⟩
    · exact ⟨((hd2 e h).1).1, ((hd2 e h).1).2.2⟩
    · rw [hd1]
      exact ⟨rfl, rfl⟩
  · intro e he
    exact not_selection_descent_of_directive_phase (hd2 e he).2

/-- Witness for C3 at a concrete spread and concrete events. -/
theorem c3_fragment_spread_no_descent_witness :
    (visit_selection ⟨[]⟩ (.fragmentSpread "F" []) initial_context).1 = initial_context ∧
    (Event.mk (.enterFragmentSpread "F") initial_context).ctx.type_stack =
      initial_context.type_stack :=
  ⟨(c3_fragment_spread_no_descent ⟨[]⟩ "F" [] initial_context).1,
   ((c3_fragment_spread_no_descent ⟨[]⟩ "F" [] initial_context).2.2.1
      (Event.mk (.enterFragmentSpread "F") initial_context) (by decide)).1⟩

/-- C4: `validate` is the concatenation, in plan order, of the rules'
error sequences: the empty plan yields no errors, appending a rule appends
exactly that rule's errors, and the whole result is the flattening of the
per-rule outputs. -/
theorem c4_validate_concatenation (schema : SchemaDoc) (operation : Document)
    (plan : List Rule) (rule : Rule) :
    validate schema operation [] = [] ∧
    validate schema operation (plan ++ [rule]) =
      validate schema operation plan ++ rule (mk_validation_context schema operation) ∧
    validate schema operation plan =
      (plan.map (fun rule => rule (mk_validation_context schema operation))).flatten := by
  refine ⟨rfl, ?_, ?_⟩
  · show (plan ++ [rule]).flatMap (fun rule => rule (mk_validation_context schema operation)) =
      plan.flatMap (fun rule => rule (mk_validation_context schema operation)) ++
        rule (mk_validation_context schema operation)
    rw [List.flatMap_append]
    simp
  · show plan.flatMap (fun rule => rule (mk_validation_context schema operation)) =
      (plan.map (fun rule => rule (mk_validation_context schema operation))).flatten
    exact List.flatMap_def plan _

/-- C5: the selection-set walk captures `current_type` onto the parent
stack on entry; every selection of the set is visited in that same pushed
context, whose `current_parent_type` is exactly the captured
`current_type`; and a field selection's first hook snapshot carries the
type-literal obtained by looking the field name up, via `field_by_name`,
on exactly the current parent type. -/
theorem c5_parent_type_capture (schema : SchemaDoc) (items : SelectionList)
    (ctx : VContext) :
    current_parent_type (push_parent_type ctx) = current_type ctx ∧
    (visit_selection_set schema (.mk items) ctx).1 = ctx ∧
    (visit_selection_set schema (.mk items) ctx).2 =
      ⟨.enterSelectionSet, push_parent_type ctx⟩ ::
        (items.toList.flatMap
          (fun s => (visit_selection schema s (push_parent_type ctx)).2)) ++
        [⟨.leaveSelectionSet, push_parent_type ctx⟩] ∧
    (∀ (field_alias : Option String) (name : String) (args : List (String × Value))
        (dirs : List Directive) (sset : SelectionSet) (c : VContext),
      (visit_selection schema (.field field_alias name args dirs sset) c).2.head? =
        some ⟨.enterField name,
          push_type schema
            (((current_parent_type c).bind (fun t => field_by_name t name)).map
              (fun f => f.field_type)) c⟩) := by
  obtain ⟨hl1, hl2⟩ := visit_selection_list_ok schema items (push_parent_type ctx)
  refine ⟨rfl, ?_, ?_, ?_⟩
  · simp only [visit_selection_set, with_parent_type]
    rw [hl1, pop_push_parent]
  · simp only [visit_selection_set, with_parent_type]
    rw [hl1, visit_selection_list_trace]
  · intro field_alias name args dirs sset c
    simp only [visit_selection, with_type]
    rw [List.cons_append, List.head?_cons]

/-- C6 (counterexample): with an empty schema (whose query root `Query` is
absent) and a query operation, root-type resolution does NOT return None:
the `query_type` accessor is not `Option`-valued at its call site, and the
embedded `schema_type_name` fails instead of producing `Except.ok none`. -/
theorem c6_counterexample :
    object_type_by_name ⟨[]⟩ (query_root_name ⟨[]⟩) = none ∧
    schema_type_name ⟨[]⟩ (.operation (.query ⟨none, [], [], .mk .nil⟩)) =
      Except.error "Must provide schema definition with query type or a type named Query." ∧
    schema_type_name ⟨[]⟩ (.operation (.query ⟨none, [], [], .mk .nil⟩)) ≠
      Except.ok none := by
  refine ⟨rfl, rfl, ?_⟩
  intro h
  exact Except.noConfusion h

/-- C6 (amended): for Mutation and Subscription operations whose root type
is absent from the schema, root-type resolution returns None, the walker
pushes None as the current type for the definition, and the traversal of
the definition completes, restoring the context; only the query root
cannot resolve to None (its accessor returns the type itself). -/
theorem c6_absent_root_resolution (schema : SchemaDoc) (q : QueryNode) (ctx : VContext) :
    (mutation_type schema = none →
      schema_type_name schema (.operation (.mutation q)) = Except.ok none ∧
      current_type (push_type schema none ctx) = none ∧
      ∃ r : VContext × List Event,
        visit_definitions schema [.operation (.mutation q)] ctx = Except.ok r ∧
        r.1 = ctx ∧
        r.2.head? = some ⟨.enterOperationDefinition, push_type schema none ctx⟩) ∧
    (subscription_type schema = none →
      schema_type_name schema (.operation (.subscription q)) = Except.ok none ∧
      current_type (push_type schema none ctx) = none ∧
      ∃ r : VContext × List Event,
        visit_definitions schema [.operation (.subscription q)] ctx = Except.ok r ∧
        r.1 = ctx ∧
        r.2.head? = some ⟨.enterOperationDefinition, push_type schema none ctx⟩) := by
  constructor
  · intro hm
    have hst : schema_type_name schema (.operation (.mutation q)) = Except.ok none := by
      simp [schema_type_name, hm]
    obtain ⟨ho1, ho2⟩ := visit_operation_definition_ok schema (.mutation q)
      (push_type schema none ctx)
    refine ⟨hst, rfl,
      ⟨(ctx, (visit_operation_definition schema (.mutation q)
        (push_type schema none ctx)).2), ?_, rfl, ?_⟩⟩
    · simp only [visit_definitions, hst, except_bind_ok, Option.map_none', with_type]
      rw [ho1, pop_push_type]
      simp [visit_definitions, except_bind_ok]
    · simp only [visit_operation_definition]
      rw [List.cons_append, List.head?_cons]
  · intro hs
    have hst : schema_type_name schema (.operation (.subscription q)) = Except.ok none := by
      simp [schema_type_name, hs]
    obtain ⟨ho1, ho2⟩ := visit_operation_definition_ok schema (.subscription q)
      (push_type schema none ctx)
    refine ⟨hst, rfl,
      ⟨(ctx, (visit_operation_definition schema (.subscription q)
        (push_type schema none ctx)).2), ?_, rfl, ?_⟩⟩
    · simp only [visit_definitions, hst, except_bind_ok, Option.map_none', with_type]
      rw [ho1, pop_push_type]
      simp [visit_definitions, except_bind_ok]
    · simp only [visit_operation_definition]
      rw [List.cons_append, List.head?_cons]

/-- Witness for C6 (amended) at a schema defining only a `Query` object
type, so that the mutation root is absent. -/
theorem c6_absent_root_resolution_witness :
    schema_type_name ⟨[.typeDef (.object ⟨"Query", [], []⟩)]⟩
        (.operation (.mutation ⟨none, [], [], .mk .nil⟩)) = Except.ok none ∧
    current_type (push_type ⟨[.typeDef (.object ⟨"Query", [], []⟩)]⟩ none initial_context) =
      none :=
  ⟨((c6_absent_root_resolution ⟨[.typeDef (.object ⟨"Query", [], []⟩)]⟩
      ⟨none, [], [], .mk .nil⟩ initial_context).1 rfl).1,
   ((c6_absent_root_resolution ⟨[.typeDef (.object ⟨"Query", [], []⟩)]⟩
      ⟨none, [], [], .mk .nil⟩ initial_context).1 rfl).2.1⟩

theorem is_directive_event_enterOp :
    is_directive_event .enterOperationDefinition = false := rfl

theorem is_directive_event_leaveOp :
    is_directive_event .leaveOperationDefinition = false := rfl

/-- C7: the walker invokes no directive hooks for directives attached to
an operation definition itself: the directive hook invocations of
`visit_operation_definition` are exactly those of the operation's
selection set (variable definitions emit none), the walk of an operation
is invariant under replacing the operation's own directive list, and a
concrete operation carrying a directive with an empty selection set
produces no directive hook invocation at all. -/
theorem c7_operation_directives_omitted (schema : SchemaDoc) (ctx : VContext) :
    (∀ op : OperationDefinition,
      directive_events (visit_operation_definition schema op ctx).2 =
        directive_events (visit_selection_set schema op.selection_set ctx).2) ∧
    (∀ (n : Option String) (vds : List VariableDefinition) (ds ds' : List Directive)
        (ss : SelectionSet),
      visit_operation_definition schema (.query ⟨n, vds, ds, ss⟩) ctx =
          visit_operation_definition schema (.query ⟨n, vds, ds', ss⟩) ctx ∧
      visit_operation_definition schema (.mutation ⟨n, vds, ds, ss⟩) ctx =
          visit_operation_definition schema (.mutation ⟨n, vds, ds', ss⟩) ctx ∧
      visit_operation_definition schema (.subscription ⟨n, vds, ds, ss⟩) ctx =
          visit_operation_definition schema (.subscription ⟨n, vds, ds', ss⟩) ctx) ∧
    directive_events (visit_operation_definition ⟨[]⟩
      (.query ⟨none, [], [⟨"skip", []⟩], .mk .nil⟩) initial_context).2 = [] := by
  refine ⟨?_, fun n vds ds ds' ss => ⟨rfl, rfl, rfl⟩, by decide⟩
  intro op
  have hv := directive_events_vardefs schema op.variable_definitions ctx
  unfold directive_events at hv ⊢
  simp only [visit_operation_definition]
  rw [(visit_variable_definitions_ok schema op.variable_definitions ctx).1]
  simp [List.filter_append, List.filter_cons, is_directive_event_enterOp,
    is_directive_event_leaveOp, hv]

/-- C8: the four query operations on the context stacks are total — each
returns the top entry of its stack, and `none` both when the stack is
empty and when the top entry was pushed as `None`. -/
theorem c8_current_queries_total :
    (∀ p i tl itl, current_type ⟨[], p, i, tl, itl⟩ = none) ∧
    (∀ t rest p i tl itl, current_type ⟨t :: rest, p, i, tl, itl⟩ = t) ∧
    (∀ ts i tl itl, current_parent_type ⟨ts, [], i, tl, itl⟩ = none) ∧
    (∀ t rest ts i tl itl, current_parent_type ⟨ts, t :: rest, i, tl, itl⟩ = t) ∧
    (∀ ts p i itl, current_type_literal ⟨ts, p, i, [], itl⟩ = none) ∧
    (∀ t rest ts p i itl, current_type_literal ⟨ts, p, i, t :: rest, itl⟩ = t) ∧
    (∀ ts p i tl, current_input_type_literal ⟨ts, p, i, tl, []⟩ = none) ∧
    (∀ t rest ts p i tl, current_input_type_literal ⟨ts, p, i, tl, t :: rest⟩ = t) := by
  refine ⟨?_, ?_, ?_, ?_, ?_, ?_, ?_, ?_⟩ <;> intros <;> rfl

/-- C9: `known_fragments` holds exactly one entry per fragment name (its
keys are nodup); lookup returns the fragment definition occurring *last*
in document order among those sharing the name (HashMap insertion
overwrite); a name is present iff some fragment definition carries it; and
on a concrete document with two fragments named `F` the second one wins. -/
theorem c9_known_fragments (doc : Document) (name : String) :
    hm_lookup name (known_fragments doc) =
      ((doc.definitions.filterMap fragment_entry).reverse.find?
        (fun entry => entry.1 == name)).map (fun entry => entry.2) ∧
    ((known_fragments doc).map (fun entry => entry.1)).Nodup ∧
    ((hm_lookup name (known_fragments doc)).isSome =
      (doc.definitions.filterMap fragment_entry).any (fun entry => entry.1 == name)) ∧
    hm_lookup "F" (known_fragments ⟨[
      .fragment ⟨"F", "A", [], .mk .nil⟩,
      .fragment ⟨"F", "B", [], .mk .nil⟩]⟩) = some ⟨"F", "B", [], .mk .nil⟩ := by
  have h1 : hm_lookup name (known_fragments doc) =
      ((doc.definitions.filterMap fragment_entry).reverse.find?
        (fun entry => entry.1 == name)).map (fun entry => entry.2) := by
    unfold known_fragments hash_map_from_iter
    rw [hm_lookup_foldl]
    simp [hm_lookup]
  refine ⟨h1, hash_map_keys_nodup_foldl _ [] (by simp), ?_, rfl⟩
  rw [h1]
  cases hf : (doc.definitions.filterMap fragment_entry).reverse.find?
      (fun entry => entry.1 == name) with
  | none =>
      simp only [hf, Option.map_none', Option.isSome_none]
      rw [List.find?_eq_none] at hf
      symm
      rw [List.any_eq_false]
      intro x hx
      exact hf x (List.mem_reverse.mpr hx)
  | some val =>
      simp only [hf, Option.map_some', Option.isSome_some]
      symm
      rw [List.any_eq_true]
      have hp := List.find?_some hf
      exact ⟨val, List.mem_reverse.mp (List.mem_of_find?_eq_some hf), hp⟩

/-- C10: `find_field` on a union type returns `none` for every field
name, `__typename` included, both directly and through `CompositeType`;
consequently a field lookup against a union parent yields no field
definition and a `none` result type. -/
theorem c10_union_find_field :
    (∀ (u : UnionType) (name : String), u.find_field name = none) ∧
    (∀ (u : UnionType) (name : String), (CompositeType.union u).find_field name = none) ∧
    (∀ (u : UnionType) (name : String),
      ((CompositeType.union u).find_field name).map (fun f => f.field_type) = none) ∧
    (∀ u : UnionType, (CompositeType.union u).find_field "__typename" = none) ∧
    (∀ (u : UnionType) (name : String), field_by_name (.union u) name = none) := by
  exact ⟨fun _ _ => rfl, fun _ _ => rfl, fun _ _ => rfl, fun _ => rfl, fun _ _ => rfl⟩

end GraphQLTools
